import Mathlib

/-!
Shallow embedding of `src/main.cpp` (recurse-invaders), with theorems
settling the specification claims about it.

Modelling conventions:
* `i32` values are modelled as `Int` (no claim exercises 32-bit overflow).
* `f32` arithmetic is modelled over `ℚ`.  Since `sinf`'s exact binary32
  value is not pinned down by the source, the update step is parametric in
  the oscillator function `s : ℚ → ℚ`, constrained where needed by the
  facts the C library guarantees (`-1 ≤ s t ≤ 1`, `s 0 = 0`).  The
  position arithmetic consumes the oscillator value through a single
  truncation, so exact rationals are faithful there; the `elapsed_time`
  accumulator, by contrast, is rounding-sensitive, and is modelled with
  genuine binary32 round-to-nearest-even semantics (`round32` below).
* The C assignment of a floating value to `i32` truncates toward zero;
  this is `truncToInt` below.
* The fixed-size `char` buffers of `invaders::fs` are modelled as
  `Nat → Char` maps (zero-initialised, hence `NUL` beyond the written
  prefix), with C-string reading as scan-to-first-NUL.
-/

/-! ## Scene state (`Vector2`, `Player`, `Enemy`, globals) -/

structure Vector2 where
  x : Int
  y : Int
deriving DecidableEq

def screen_width : Int := 640

def screen_height : Int := 480

structure Player where
  position : Vector2
  size : Vector2
  speed : Int
deriving DecidableEq

structure Enemy where
  position : Vector2
  size : Vector2
deriving DecidableEq

def initPlayer : Player := { position := ⟨0, 400⟩, size := ⟨64, 64⟩, speed := 4 }

def initEnemy : Enemy := { position := ⟨0, 0⟩, size := ⟨64, 64⟩ }

/-- `constexpr f32 frame_time = 1.f / 60.f;` (exact-rational idealisation). -/
def frame_time : ℚ := 1 / 60

structure GameState where
  player : Player
  enemy : Enemy
  elapsed_time : ℚ
deriving DecidableEq

def initState : GameState := { player := initPlayer, enemy := initEnemy, elapsed_time := 0 }

/-- C float-to-integer conversion: truncation toward zero. -/
def truncToInt (q : ℚ) : Int := if 0 ≤ q then ⌊q⌋ else ⌈q⌉

/-- The `clamp_position` lambda: `x = max(x, 0); x = min(x, screen_width - size.x);`. -/
def clamp_position (x sizeX : Int) : Int :=
  min (max x 0) (screen_width - sizeX)

/-- One body of the game-update section of the main loop (lines 170–182
followed by the `elapsed_time += frame_time` at line 202), parametric in
the oscillator function `s` standing for `sinf`. -/
def step (s : ℚ → ℚ) (move_left move_right : Bool) (st : GameState) : GameState :=
  let px0 := st.player.position.x
  let px1 := if move_left then px0 - st.player.speed else px0
  let px2 := if move_right then px1 + st.player.speed else px1
  let enemy_max_x := screen_width - st.enemy.size.x
  let oscillator := (s st.elapsed_time + 1) / 2
  let ex := truncToInt (oscillator * (enemy_max_x : ℚ))
  { player := { st.player with
      position := { x := clamp_position px2 st.player.size.x, y := st.player.position.y } }
    enemy := { st.enemy with
      position := { x := clamp_position ex st.enemy.size.x, y := st.enemy.position.y } }
    elapsed_time := st.elapsed_time + frame_time }

/-- Run the loop over a list of per-frame input flags (`move_left`, `move_right`). -/
def runFrames (s : ℚ → ℚ) : List (Bool × Bool) → GameState → GameState
  | [], st => st
  | (ml, mr) :: rest, st => runFrames s rest (step s ml mr st)

/-! ## Basic step lemmas -/

lemma step_elapsed (s : ℚ → ℚ) (ml mr : Bool) (st : GameState) :
    (step s ml mr st).elapsed_time = st.elapsed_time + frame_time := rfl

lemma step_player_y (s : ℚ → ℚ) (ml mr : Bool) (st : GameState) :
    (step s ml mr st).player.position.y = st.player.position.y := rfl

lemma step_enemy_y (s : ℚ → ℚ) (ml mr : Bool) (st : GameState) :
    (step s ml mr st).enemy.position.y = st.enemy.position.y := rfl

lemma step_player_size (s : ℚ → ℚ) (ml mr : Bool) (st : GameState) :
    (step s ml mr st).player.size = st.player.size := rfl

lemma step_player_speed (s : ℚ → ℚ) (ml mr : Bool) (st : GameState) :
    (step s ml mr st).player.speed = st.player.speed := rfl

lemma step_enemy_size (s : ℚ → ℚ) (ml mr : Bool) (st : GameState) :
    (step s ml mr st).enemy.size = st.enemy.size := rfl

/-- **C9.** The update step never touches either entity's y coordinate, and
starting from the initial state every run keeps `player.position.y = 400`
and `enemy.position.y = 0`. -/
theorem C9_y_positions_never_modified :
    (∀ (s : ℚ → ℚ) (ml mr : Bool) (st : GameState),
      (step s ml mr st).player.position.y = st.player.position.y ∧
      (step s ml mr st).enemy.position.y = st.enemy.position.y) ∧
    (∀ (s : ℚ → ℚ) (inputs : List (Bool × Bool)),
      (runFrames s inputs initState).player.position.y = 400 ∧
      (runFrames s inputs initState).enemy.position.y = 0) := by
  constructor
  · intro s ml mr st
    exact ⟨step_player_y s ml mr st, step_enemy_y s ml mr st⟩
  · intro s inputs
    have key : ∀ (l : List (Bool × Bool)) (st : GameState),
        (runFrames s l st).player.position.y = st.player.position.y ∧
        (runFrames s l st).enemy.position.y = st.enemy.position.y := by
      intro l
      induction l with
      | nil => intro st; exact ⟨rfl, rfl⟩
      | cons hd tl ih =>
          intro st
          obtain ⟨ml, mr⟩ := hd
          rw [runFrames]
          refine ⟨?_, ?_⟩
          · rw [(ih _).1, step_player_y]
          · rw [(ih _).2, step_enemy_y]
    have h := key inputs initState
    simpa [initState, initPlayer, initEnemy] using h

/-! ## Clamping and player movement (C2, C3, C4) -/

lemma step_player_x (s : ℚ → ℚ) (ml mr : Bool) (st : GameState) :
    (step s ml mr st).player.position.x =
      clamp_position
        ((if mr then (if ml then st.player.position.x - st.player.speed
                      else st.player.position.x) + st.player.speed
          else (if ml then st.player.position.x - st.player.speed
                else st.player.position.x)))
        st.player.size.x := rfl

lemma clamp_position_mem (x sizeX : Int) (hs : sizeX ≤ screen_width) :
    0 ≤ clamp_position x sizeX ∧ clamp_position x sizeX ≤ screen_width - sizeX := by
  unfold clamp_position
  constructor
  · exact le_min (le_max_right x 0) (by omega)
  · exact min_le_right _ _

/-- **C2.** After the clamping step of any frame, both entities' x positions
lie in `[0, screen_width - size.x] = [0, 640 - 64]` (sizes are the fixed
`64×64`), so the invariant holds at every render. -/
theorem C2_positions_clamped (s : ℚ → ℚ) (ml mr : Bool) (st : GameState)
    (hp : st.player.size.x = 64) (he : st.enemy.size.x = 64) :
    (0 ≤ (step s ml mr st).player.position.x ∧
      (step s ml mr st).player.position.x ≤ 640 - 64) ∧
    (0 ≤ (step s ml mr st).enemy.position.x ∧
      (step s ml mr st).enemy.position.x ≤ 640 - 64) := by
  constructor
  · have h := clamp_position_mem
      ((if mr then (if ml then st.player.position.x - st.player.speed
                    else st.player.position.x) + st.player.speed
        else (if ml then st.player.position.x - st.player.speed
              else st.player.position.x)))
      st.player.size.x (by rw [hp]; norm_num [screen_width])
    rw [step_player_x]
    rw [hp] at h ⊢
    simpa [screen_width] using h
  · have h := clamp_position_mem
      (truncToInt ((s st.elapsed_time + 1) / 2 * ((screen_width - st.enemy.size.x : Int) : ℚ)))
      st.enemy.size.x (by rw [he]; norm_num [screen_width])
    rw [he] at h
    simpa [step, screen_width, he] using h

theorem C2_positions_clamped_witness :
    (0 ≤ (step (fun _ => 0) true false initState).player.position.x ∧
      (step (fun _ => 0) true false initState).player.position.x ≤ 640 - 64) ∧
    (0 ≤ (step (fun _ => 0) true false initState).enemy.position.x ∧
      (step (fun _ => 0) true false initState).enemy.position.x ≤ 640 - 64) :=
  C2_positions_clamped (fun _ => 0) true false initState rfl rfl

lemma step_left_only_x (s : ℚ → ℚ) (st : GameState)
    (hp : st.player.size.x = 64) (hv : st.player.speed = 4)
    (h0 : 0 ≤ st.player.position.x) (h1 : st.player.position.x ≤ 576) :
    (step s true false st).player.position.x = max 0 (st.player.position.x - 4) := by
  rw [step_player_x]
  simp only [if_true, if_false, Bool.false_eq_true, ite_false, ite_true, hv, hp]
  unfold clamp_position
  simp only [screen_width]
  omega

/-- **C3.** Starting from any player x in the valid range, `N` update steps
with only "move left" held leave player x at `max 0 (x₀ - 4 * N)`: the
per-frame decrement of `speed = 4` is floor-clamped at 0 each frame. -/
theorem C3_move_left_floor_clamped (s : ℚ → ℚ) (N : Nat) (st : GameState)
    (hp : st.player.size.x = 64) (hv : st.player.speed = 4)
    (h0 : 0 ≤ st.player.position.x) (h1 : st.player.position.x ≤ 576) :
    (runFrames s (List.replicate N (true, false)) st).player.position.x =
      max 0 (st.player.position.x - 4 * N) := by
  induction N generalizing st with
  | zero => simp [runFrames]; omega
  | succ n ih =>
      rw [List.replicate_succ, runFrames]
      have hx := step_left_only_x s st hp hv h0 h1
      have hres := ih (step s true false st)
        (by rw [step_player_size]; exact hp)
        (by rw [step_player_speed]; exact hv)
        (by rw [hx]; omega) (by rw [hx]; omega)
      rw [hres, hx]
      push_cast
      omega

theorem C3_move_left_floor_clamped_witness :
    initState.player.size.x = 64 ∧ initState.player.speed = 4 ∧
    0 ≤ initState.player.position.x ∧ initState.player.position.x ≤ 576 ∧
    (runFrames (fun _ => 0) (List.replicate 5 (true, false)) initState).player.position.x =
      max 0 (initState.player.position.x - 4 * 5) :=
  ⟨rfl, rfl, by decide, by decide,
    C3_move_left_floor_clamped (fun _ => 0) 5 initState rfl rfl (by decide) (by decide)⟩

lemma step_both_flags_x (s : ℚ → ℚ) (st : GameState)
    (hp : st.player.size.x = 64)
    (h0 : 0 ≤ st.player.position.x) (h1 : st.player.position.x ≤ 576) :
    (step s true true st).player.position.x = st.player.position.x := by
  rw [step_player_x]
  simp only [ite_true, hp]
  unfold clamp_position
  simp only [screen_width]
  omega

/-- **C4.** With both "move left" and "move right" held, the `-speed` and
`+speed` additions both execute and cancel: any number of update steps
leaves an in-range player x unchanged. -/
theorem C4_both_flags_cancel (s : ℚ → ℚ) (N : Nat) (st : GameState)
    (hp : st.player.size.x = 64)
    (h0 : 0 ≤ st.player.position.x) (h1 : st.player.position.x ≤ 576) :
    (runFrames s (List.replicate N (true, true)) st).player.position.x =
      st.player.position.x := by
  induction N generalizing st with
  | zero => simp [runFrames]
  | succ n ih =>
      rw [List.replicate_succ, runFrames]
      have hx := step_both_flags_x s st hp h0 h1
      have hres := ih (step s true true st)
        (by rw [step_player_size]; exact hp)
        (by rw [hx]; omega) (by rw [hx]; omega)
      rw [hres, hx]

theorem C4_both_flags_cancel_witness :
    initState.player.size.x = 64 ∧
    0 ≤ initState.player.position.x ∧ initState.player.position.x ≤ 576 ∧
    (runFrames (fun _ => 0) (List.replicate 7 (true, true)) initState).player.position.x =
      initState.player.position.x :=
  ⟨rfl, by decide, by decide,
    C4_both_flags_cancel (fun _ => 0) 7 initState rfl (by decide) (by decide)⟩

/-! ## The enemy oscillator (C1, C5) -/

lemma step_enemy_x (s : ℚ → ℚ) (ml mr : Bool) (st : GameState) :
    (step s ml mr st).enemy.position.x =
      clamp_position
        (truncToInt ((s st.elapsed_time + 1) / 2 *
          ((screen_width - st.enemy.size.x : Int) : ℚ)))
        st.enemy.size.x := rfl

lemma step_enemy_x_floor (s : ℚ → ℚ) (ml mr : Bool) (st : GameState)
    (hb : ∀ t, -1 ≤ s t ∧ s t ≤ 1) (he : st.enemy.size.x = 64) :
    (step s ml mr st).enemy.position.x = ⌊(s st.elapsed_time + 1) / 2 * (576 : ℚ)⌋ := by
  obtain ⟨hl, hr⟩ := hb st.elapsed_time
  have hcast : ((screen_width - st.enemy.size.x : Int) : ℚ) = 576 := by
    rw [he]; norm_num [screen_width]
  have ho0 : (0 : ℚ) ≤ (s st.elapsed_time + 1) / 2 := by linarith
  have ho1 : (s st.elapsed_time + 1) / 2 ≤ 1 := by linarith
  have hprod0 : (0 : ℚ) ≤ (s st.elapsed_time + 1) / 2 * 576 :=
    mul_nonneg ho0 (by norm_num)
  have hprod1 : (s st.elapsed_time + 1) / 2 * 576 ≤ 576 := by nlinarith
  have hfl0 : 0 ≤ ⌊(s st.elapsed_time + 1) / 2 * (576 : ℚ)⌋ := Int.floor_nonneg.mpr hprod0
  have hfl1 : ⌊(s st.elapsed_time + 1) / 2 * (576 : ℚ)⌋ ≤ 576 := by
    have h := Int.floor_le_floor hprod1
    simpa using h
  rw [step_enemy_x, hcast, he]
  unfold truncToInt clamp_position
  rw [if_pos hprod0]
  simp only [screen_width]
  omega

/-- **C1 (amended).** The enemy's x position computed by the update step is the
*truncation toward zero* (equivalently the floor, the value being
non-negative) of `((s(elapsed_time)+1)/2) * (screen_width - enemy.size.x)` —
not the rounding to nearest.  It is a pure deterministic function of
`elapsed_time` alone, independent of the enemy's previous position and of the
input flags, so the trajectory is exactly reproducible. -/
theorem C1_enemy_formula (s : ℚ → ℚ) (ml mr : Bool) (st : GameState)
    (hb : ∀ t, -1 ≤ s t ∧ s t ≤ 1) (he : st.enemy.size.x = 64) :
    (step s ml mr st).enemy.position.x =
      ⌊(s st.elapsed_time + 1) / 2 * ((640 : ℚ) - 64)⌋ ∧
    (∀ (ml' mr' : Bool) (st' : GameState), st'.enemy.size.x = 64 →
      st'.elapsed_time = st.elapsed_time →
      (step s ml' mr' st').enemy.position.x = (step s ml mr st).enemy.position.x) := by
  have h576 : ((640 : ℚ) - 64) = 576 := by norm_num
  constructor
  · rw [h576]; exact step_enemy_x_floor s ml mr st hb he
  · intro ml' mr' st' he' ht
    rw [step_enemy_x_floor s ml' mr' st' hb he', step_enemy_x_floor s ml mr st hb he, ht]

theorem C1_enemy_formula_witness :
    (step (fun _ => 0) false false initState).enemy.position.x =
      ⌊((0 : ℚ) + 1) / 2 * ((640 : ℚ) - 64)⌋ :=
  (C1_enemy_formula (fun _ => 0) false false initState
    (fun _ => ⟨by norm_num, by norm_num⟩) rfl).1

/-- A valid oscillator value (constant `-383/384`, within `[-1, 1]`) on which
the product `((s t + 1)/2) * 576 = 3/4` has rounding `1` but truncation `0`. -/
def oscRoundCex : ℚ → ℚ := fun _ => -383 / 384

/-- **C1 (counterexample).** The claim's formula `round(((s t)+1)/2 * (640-64))`
does not match the code: for the in-range oscillator value `-383/384` at the
initial state, the code stores `0` (truncation of `3/4`) while the claimed
rounding gives `1`. -/
theorem C1_round_counterexample :
    (∀ t, -1 ≤ oscRoundCex t ∧ oscRoundCex t ≤ 1) ∧
    (step oscRoundCex false false initState).enemy.position.x ≠
      round ((oscRoundCex initState.elapsed_time + 1) / 2 * ((640 : ℚ) - 64)) := by
  constructor
  · intro t
    constructor <;> norm_num [oscRoundCex]
  · have hstep : (step oscRoundCex false false initState).enemy.position.x = 0 := by
      rw [step_enemy_x]
      norm_num [oscRoundCex, initState, initEnemy, truncToInt, clamp_position, screen_width]
    have hround : round ((oscRoundCex initState.elapsed_time + 1) / 2 * ((640 : ℚ) - 64)) = 1 := by
      rw [round_eq]
      norm_num [oscRoundCex]
    rw [hstep, hround]
    decide

/-- The oscillator used to refute C5's `sin(1/60)` phase: it agrees with
`sinf` at `0` (where `sinf` returns exactly `0`) and takes an arbitrary
in-range value at every other argument. -/
def oscPhaseCex : ℚ → ℚ := fun t => if t = 0 then 0 else 1 / 30

/-- **C5 (counterexample).** After one update step from the initial state the
enemy x is computed from `elapsed_time = 0` (the accumulator is incremented
only *after* the position update), not from `1/60`: for a valid oscillator
with `s 0 = 0`, the code yields `288` while the claimed
`trunc(((s(1/60))+1)/2 * (640-64))` yields `297`. -/
theorem C5_phase_counterexample :
    (∀ t, -1 ≤ oscPhaseCex t ∧ oscPhaseCex t ≤ 1) ∧ oscPhaseCex 0 = 0 ∧
    ¬ ((step oscPhaseCex false false initState).player.position.x = 0 ∧
       (step oscPhaseCex false false initState).player.position.y = 400 ∧
       (step oscPhaseCex false false initState).enemy.position.x =
         truncToInt ((oscPhaseCex (1 / 60) + 1) / 2 * ((640 : ℚ) - 64))) := by
  refine ⟨?_, by norm_num [oscPhaseCex], ?_⟩
  · intro t
    unfold oscPhaseCex
    by_cases h : t = 0
    · simp [h]
    · simp only [h, if_false]
      norm_num
  · rintro ⟨-, -, hC⟩
    have h1 : (step oscPhaseCex false false initState).enemy.position.x = 288 := by
      rw [step_enemy_x]
      norm_num [oscPhaseCex, initState, initEnemy, truncToInt, clamp_position, screen_width]
    have h2 : truncToInt ((oscPhaseCex (1 / 60) + 1) / 2 * ((640 : ℚ) - 64)) = 297 := by
      norm_num [oscPhaseCex, truncToInt]
    rw [h1, h2] at hC
    exact absurd hC (by decide)

/-- **C5 (amended).** Starting from the initial state with no input flags, one
update step leaves the player at `(0, 400)` and sets the enemy x to
`trunc(((s 0)+1)/2 * (640-64)) = 288` (the phase is `elapsed_time = 0`, since
the accumulator is incremented after the position update), after which
`elapsed_time = 1/60`. -/
theorem C5_first_step (s : ℚ → ℚ) (hs0 : s 0 = 0) :
    (step s false false initState).player.position.x = 0 ∧
    (step s false false initState).player.position.y = 400 ∧
    (step s false false initState).enemy.position.x = 288 ∧
    (step s false false initState).enemy.position.y = 0 ∧
    (step s false false initState).elapsed_time = 1 / 60 := by
  have hx : (step s false false initState).enemy.position.x = 288 := by
    rw [step_enemy_x]
    simp only [initState, initEnemy, initPlayer]
    rw [hs0]
    norm_num [truncToInt, clamp_position, screen_width]
  refine ⟨?_, rfl, hx, rfl, ?_⟩
  · rw [step_player_x]
    simp [initState, initPlayer, clamp_position, screen_width]
  · rw [step_elapsed]
    norm_num [initState, frame_time]

theorem C5_first_step_witness :
    (fun _ : ℚ => (0 : ℚ)) 0 = 0 ∧
    (step (fun _ => 0) false false initState).player.position.x = 0 ∧
    (step (fun _ => 0) false false initState).player.position.y = 400 ∧
    (step (fun _ => 0) false false initState).enemy.position.x = 288 ∧
    (step (fun _ => 0) false false initState).enemy.position.y = 0 ∧
    (step (fun _ => 0) false false initState).elapsed_time = 1 / 60 :=
  ⟨rfl, C5_first_step (fun _ => 0) rfl⟩

/-! ## `invaders::fs::set_install_dir` (C7, C10)

The 256-byte zero-initialised `char` buffer is modelled as `Nat → Char`
(written by `readlink`, which does not null-terminate); C-string reading is
scan-to-first-`NUL`, and the stripping loop is `strip_go`, a direct
transcription of the `for (i32 i = len - 1; i > 0; i--)` loop. -/

def NUL : Char := Char.ofNat 0

def max_path_len : Nat := 256

/-- The buffer contents after `readlink` wrote the path into the
zero-initialised buffer, indexed access (`NUL` beyond the written prefix). -/
def bufOf (p : List Char) : Nat → Char := fun k => p.getD k NUL

/-- The stripping loop of `set_install_dir`: from index `i` down to 1, count
a separator if present, zero the byte, and stop once `removed == 3`. -/
def strip_go (buf : Nat → Char) : Nat → Nat → (Nat → Char)
  | 0, _ => buf
  | i+1, removed =>
    if (if buf (i+1) = '/' then removed + 1 else removed) = 3
    then Function.update buf (i+1) NUL
    else strip_go (Function.update buf (i+1) NUL) i
           (if buf (i+1) = '/' then removed + 1 else removed)

/-- Read the buffer as a C string: the characters before the first `NUL`
among the first `n` bytes. -/
def readC (buf : Nat → Char) (n : Nat) : List Char :=
  ((List.range n).map buf).takeWhile (fun c => c != NUL)

/-- `set_install_dir` on a buffer holding the null-terminated path `p`
(so `strlen` returned `p.length`): run the stripping loop, then read the
resulting C string back out of the 256-byte buffer. -/
def set_install_dir (p : List Char) : List Char :=
  readC (strip_go (bufOf p) (p.length - 1) 0) max_path_len

def countSlash (p : List Char) : Nat := p.count '/'

/-- Number of `'/'` bytes among buffer indices `1..i`. -/
def slashesUpTo (buf : Nat → Char) : Nat → Nat
  | 0 => 0
  | i+1 => slashesUpTo buf i + (if buf (i+1) = '/' then 1 else 0)

lemma slashesUpTo_update (buf : Nat → Char) (j : Nat) (c : Char) :
    ∀ i, i < j → slashesUpTo (Function.update buf j c) i = slashesUpTo buf i := by
  intro i
  induction i with
  | zero => intro _; rfl
  | succ k ih =>
      intro hij
      rw [slashesUpTo, slashesUpTo, ih (by omega),
        Function.update_noteq (by omega : k + 1 ≠ j)]

/-- When fewer than 3 separators remain to be found, the loop never breaks:
it zeroes every byte at indices `1..i` and leaves the rest unchanged. -/
lemma strip_go_zeroes :
    ∀ (i : Nat) (buf : Nat → Char) (removed : Nat),
      removed + slashesUpTo buf i < 3 →
      ∀ k, strip_go buf i removed k = if 1 ≤ k ∧ k ≤ i then NUL else buf k := by
  intro i
  induction i with
  | zero =>
      intro buf removed _ k
      rw [strip_go, if_neg (by omega)]
  | succ n ih =>
      intro buf removed hlt k
      rw [slashesUpTo] at hlt
      have h3 : ¬((if buf (n+1) = '/' then removed + 1 else removed) = 3) := by
        by_cases h : buf (n+1) = '/' <;> simp [h] at hlt ⊢ <;> omega
      rw [strip_go, if_neg h3]
      have hrec := ih (Function.update buf (n+1) NUL)
        (if buf (n+1) = '/' then removed + 1 else removed)
        (by
          rw [slashesUpTo_update buf (n+1) NUL n (by omega)]
          by_cases h : buf (n+1) = '/' <;> simp [h] at hlt ⊢ <;> omega)
        k
      rw [hrec]
      by_cases hk : 1 ≤ k ∧ k ≤ n
      · rw [if_pos hk, if_pos (by omega)]
      · rw [if_neg hk]
        by_cases hk1 : k = n + 1
        · rw [hk1, Function.update_same, if_pos (by omega)]
        · rw [Function.update_noteq hk1, if_neg (by omega)]

lemma slashesUpTo_bufOf_eq (p : List Char) (i : Nat) :
    slashesUpTo (bufOf p) i = countSlash ((p.drop 1).take i) := by
  induction i with
  | zero => rfl
  | succ n ih =>
      rw [slashesUpTo, ih]
      unfold countSlash
      rw [List.take_succ, List.count_append, List.getElem?_drop]
      congr 1
      rcases hg : p[1 + n]? with _ | c
      · have hn : bufOf p (n + 1) = NUL := by
          unfold bufOf
          rw [List.getD_eq_getElem?_getD, Nat.add_comm n 1, hg]
          rfl
        rw [hn, if_neg (by decide)]
        rfl
      · have hc : bufOf p (n + 1) = c := by
          unfold bufOf
          rw [List.getD_eq_getElem?_getD, Nat.add_comm n 1, hg]
          rfl
        rw [hc]
        simp only [Option.toList_some, List.count_singleton']

lemma slashesUpTo_bufOf_le (p : List Char) (i : Nat) :
    slashesUpTo (bufOf p) i ≤ countSlash p := by
  rw [slashesUpTo_bufOf_eq]
  unfold countSlash
  exact ((List.take_sublist _ _).trans (List.drop_sublist _ _)).count_le '/'

lemma readC_eq_head (buf : Nat → Char) (n : Nat)
    (h0 : buf 0 ≠ NUL) (h1 : ∀ k, 1 ≤ k → buf k = NUL) :
    readC buf (n + 2) = [buf 0] := by
  unfold readC
  rw [List.range_succ_eq_map, List.map_cons,
    List.takeWhile_cons_of_pos (by simpa using h0)]
  rw [List.range_succ_eq_map, List.map_cons, List.map_cons]
  rw [List.takeWhile_cons_of_neg (by simp [h1 1 (by omega)])]

/-- **C7 (counterexample).** On the path `"ab/cd"` — nonempty, fewer than 3
separators — the loop does *not* stop early leaving a too-long base
directory: it zeroes every byte except the first, producing the
single-character string `"a"`, which does not even retain the path's first
segment `"ab"` as a prefix. -/
theorem C7_short_path_counterexample :
    countSlash ['a', 'b', '/', 'c', 'd'] < 3 ∧
    set_install_dir ['a', 'b', '/', 'c', 'd'] = ['a'] ∧
    (set_install_dir ['a', 'b', '/', 'c', 'd']).take
        ((['a', 'b', '/', 'c', 'd'] : List Char).takeWhile (fun c => c != '/')).length ≠
      (['a', 'b', '/', 'c', 'd'] : List Char).takeWhile (fun c => c != '/') := by
  decide

/-- **C7 (amended).** For every null-terminated path with fewer than 3 `'/'`
separators, the stripping loop runs all the way down to index 1, zeroing
every byte except the first: the resulting base directory is the *single
first character* of the path — an incorrect, too-*short* result, not a
too-long one. -/
theorem C7_short_path_strips_everything (p : List Char) (hne : p ≠ [])
    (hnul : NUL ∉ p) (hsl : countSlash p < 3) (_hlen : p.length < max_path_len) :
    set_install_dir p = [p.headD NUL] := by
  have hlen1 : 1 ≤ p.length := List.length_pos.mpr hne
  have hz := strip_go_zeroes (p.length - 1) (bufOf p) 0
    (by
      have hb := slashesUpTo_bufOf_le p (p.length - 1)
      omega)
  have h0 : strip_go (bufOf p) (p.length - 1) 0 0 = p.headD NUL := by
    rw [hz 0, if_neg (by omega)]
    unfold bufOf
    cases p with
    | nil => exact absurd rfl hne
    | cons c rest => rfl
  have h0ne : strip_go (bufOf p) (p.length - 1) 0 0 ≠ NUL := by
    rw [h0]
    cases p with
    | nil => exact absurd rfl hne
    | cons c rest =>
        simp only [List.headD_cons]
        intro hc
        exact hnul (hc ▸ List.mem_cons_self c rest)
  have h1 : ∀ k, 1 ≤ k → strip_go (bufOf p) (p.length - 1) 0 k = NUL := by
    intro k hk
    rw [hz k]
    by_cases hcase : 1 ≤ k ∧ k ≤ p.length - 1
    · rw [if_pos hcase]
    · rw [if_neg hcase]
      unfold bufOf
      refine List.getD_eq_default _ _ ?_
      omega
  unfold set_install_dir
  have h256 : max_path_len = 254 + 2 := rfl
  rw [h256, readC_eq_head _ 254 h0ne h1, h0]

theorem C7_short_path_strips_everything_witness :
    (['x', 'y', '/', 'z'] : List Char) ≠ [] ∧
    NUL ∉ (['x', 'y', '/', 'z'] : List Char) ∧
    countSlash ['x', 'y', '/', 'z'] < 3 ∧
    (['x', 'y', '/', 'z'] : List Char).length < max_path_len ∧
    set_install_dir ['x', 'y', '/', 'z'] = ['x'] :=
  ⟨by decide, by decide, by decide, by decide,
    C7_short_path_strips_everything ['x', 'y', '/', 'z']
      (by decide) (by decide) (by decide) (by decide)⟩

/-! ## `readlink` / `strlen` safety of `set_install_dir` (C10) -/

/-- The 256-byte zero-initialised buffer after `readlink("/proc/self/exe",
buffer, 256)` wrote the executable path: the first `min(len, 256)` bytes of
the path, the zero-initialised tail beyond them.  `readlink` itself never
writes a terminating `NUL`. -/
def readlinkWrite (path : List Char) : List Char :=
  path.take max_path_len ++ List.replicate (max_path_len - path.length) NUL

/-- `strlen`'s scan, restricted to the bytes of the buffer: returns `none`
when no `NUL` occurs within the buffer, i.e. exactly when the C scan would
read past the end of the array. -/
def cStrlen_go : List Char → Nat → Option Nat
  | [], _ => none
  | c :: rest, acc => if c = NUL then some acc else cStrlen_go rest (acc + 1)

def cStrlen (buf : List Char) : Option Nat := cStrlen_go buf 0

lemma cStrlen_go_none (l : List Char) (h : NUL ∉ l) : ∀ acc, cStrlen_go l acc = none := by
  induction l with
  | nil => intro _; rfl
  | cons c rest ih =>
      intro acc
      rw [cStrlen_go, if_neg (fun hc => h (by rw [← hc]; exact List.mem_cons_self c rest))]
      exact ih (fun hm => h (List.mem_cons_of_mem c hm)) (acc + 1)

lemma cStrlen_go_append (l : List Char) (h : NUL ∉ l) (rest : List Char) :
    ∀ acc, cStrlen_go (l ++ NUL :: rest) acc = some (acc + l.length) := by
  induction l with
  | nil =>
      intro acc
      simp [cStrlen_go]
  | cons c t ih =>
      intro acc
      rw [List.cons_append, cStrlen_go,
        if_neg (fun hc => h (by rw [← hc]; exact List.mem_cons_self c t)),
        ih (fun hm => h (List.mem_cons_of_mem c hm)) (acc + 1)]
      simp only [List.length_cons]
      congr 1
      omega

/-- **C10.** `readlink` does not null-terminate, so `strlen` relies on the
zero-initialised tail of the 256-byte buffer: for an executable path shorter
than the buffer the scan finds the first zero exactly at `path.length` and
every index `i ≤ len - 1` touched by the stripping loop is in bounds, while
for a path of length ≥ 256 the buffer contains no `NUL` at all and the scan
runs past the end of the array (modelled as `none`). -/
theorem C10_strlen_safety (p : List Char) (hnul : NUL ∉ p) :
    (p.length < max_path_len →
      cStrlen (readlinkWrite p) = some p.length ∧
      ∀ i, i ≤ p.length - 1 → i < max_path_len) ∧
    (max_path_len ≤ p.length → cStrlen (readlinkWrite p) = none) := by
  constructor
  · intro hlt
    refine ⟨?_, fun i hi => by omega⟩
    unfold cStrlen readlinkWrite
    rw [List.take_of_length_le (by omega)]
    have hrep : List.replicate (max_path_len - p.length) NUL =
        NUL :: List.replicate (max_path_len - p.length - 1) NUL := by
      rw [← List.replicate_succ]
      congr 1
      omega
    rw [hrep, cStrlen_go_append p hnul _ 0]
    simp
  · intro hge
    unfold cStrlen readlinkWrite
    have hr0 : max_path_len - p.length = 0 := by omega
    rw [hr0]
    simp only [List.replicate_zero, List.append_nil]
    exact cStrlen_go_none _ (fun hm => hnul ((List.take_sublist _ _).subset hm)) 0

theorem C10_strlen_safety_witness :
    cStrlen (readlinkWrite ['a', '/', 'b']) = some 3 ∧
    cStrlen (readlinkWrite (List.replicate 256 'a')) = none :=
  ⟨((C10_strlen_safety ['a', '/', 'b'] (by decide)).1 (by decide)).1,
    (C10_strlen_safety (List.replicate 256 'a')
      (fun hm => absurd (List.eq_of_mem_replicate hm) (by decide))).2
      (by rw [List.length_replicate]; exact Nat.le_refl _)⟩

/-! ## Process lifetime and exit status (C8) -/

inductive SDLKey where
  | left
  | right
  | other
deriving DecidableEq

/-- The event kinds `main` distinguishes: `SDL_QUIT`, `SDL_KEYDOWN` /
`SDL_KEYUP` with the key code, and everything else (ignored). -/
inductive SDLEvent where
  | quit
  | keydown (k : SDLKey)
  | keyup (k : SDLKey)
  | other
deriving DecidableEq

/-- The inner `while (SDL_PollEvent(&event))` loop: drain the frame's
events, updating the movement flags; `none` means an `SDL_QUIT` event was
reached, at which point `main` executes `return 0`. -/
def pollEvents : List SDLEvent → Bool → Bool → Option (Bool × Bool)
  | [], ml, mr => some (ml, mr)
  | e :: rest, ml, mr =>
    match e with
    | .quit => none
    | .keydown .left => pollEvents rest true mr
    | .keydown .right => pollEvents rest ml true
    | .keydown .other => pollEvents rest ml mr
    | .keyup .left => pollEvents rest false mr
    | .keyup .right => pollEvents rest ml false
    | .keyup .other => pollEvents rest ml mr
    | .other => pollEvents rest ml mr

/-- The `while (true)` loop over a finite prefix of frames, each frame
carrying its pending event list: returns `some exit_code` if the process
exits during those frames, `none` if it is still running after them. -/
def runLoop (s : ℚ → ℚ) : List (List SDLEvent) → Bool → Bool → GameState → Option Nat
  | [], _, _, _ => none
  | evs :: rest, ml, mr, st =>
    match pollEvents evs ml mr with
    | none => some 0
    | some (ml', mr') => runLoop s rest ml' mr' (step s ml' mr' st)

/-- Outcomes of the four fallible initialization steps of `main`:
`SDL_Init(SDL_INIT_VIDEO)`, `SDL_CreateWindowAndRenderer`, and the two
`IMG_LoadTexture` calls. -/
structure InitOutcome where
  videoOk : Bool
  windowOk : Bool
  shipTextureOk : Bool
  enemyTextureOk : Bool
deriving DecidableEq

/-- `main`: each failed initialization step is `return 1`; otherwise run the
loop with both movement flags initially false. -/
def mainModel (ini : InitOutcome) (s : ℚ → ℚ) (frames : List (List SDLEvent)) : Option Nat :=
  if ¬ini.videoOk then some 1
  else if ¬ini.windowOk then some 1
  else if ¬ini.shipTextureOk then some 1
  else if ¬ini.enemyTextureOk then some 1
  else runLoop s frames false false initState

lemma pollEvents_eq_none_iff (evs : List SDLEvent) :
    ∀ ml mr, pollEvents evs ml mr = none ↔ SDLEvent.quit ∈ evs := by
  induction evs with
  | nil => intro ml mr; simp [pollEvents]
  | cons e rest ih =>
      intro ml mr
      cases e with
      | quit => simp [pollEvents]
      | keydown k => cases k <;> simp [pollEvents, ih]
      | keyup k => cases k <;> simp [pollEvents, ih]
      | other => simp [pollEvents, ih]

lemma runLoop_eq_zero_iff (s : ℚ → ℚ) (frames : List (List SDLEvent)) :
    ∀ ml mr st, runLoop s frames ml mr st = some 0 ↔
      ∃ evs ∈ frames, SDLEvent.quit ∈ evs := by
  induction frames with
  | nil => intro ml mr st; simp [runLoop]
  | cons evs rest ih =>
      intro ml mr st
      rw [runLoop]
      rcases hpoll : pollEvents evs ml mr with _ | ⟨ml', mr'⟩
      · constructor
        · intro _
          exact ⟨evs, List.mem_cons_self evs rest, (pollEvents_eq_none_iff evs ml mr).mp hpoll⟩
        · intro _
          simp [hpoll]
      · simp only [hpoll]
        rw [ih]
        have hq : SDLEvent.quit ∉ evs := by
          intro hmem
          rw [← pollEvents_eq_none_iff evs ml mr] at hmem
          rw [hpoll] at hmem
          exact absurd hmem (by simp)
        constructor
        · rintro ⟨l, hl, hql⟩
          exact ⟨l, List.mem_cons_of_mem evs hl, hql⟩
        · rintro ⟨l, hl, hql⟩
          rcases List.mem_cons.mp hl with hl | hl
          · exact absurd (hl ▸ hql) hq
          · exact ⟨l, hl, hql⟩

lemma runLoop_ne_one (s : ℚ → ℚ) (frames : List (List SDLEvent)) :
    ∀ ml mr st, runLoop s frames ml mr st ≠ some 1 := by
  induction frames with
  | nil => intro ml mr st; simp [runLoop]
  | cons evs rest ih =>
      intro ml mr st
      rw [runLoop]
      rcases hpoll : pollEvents evs ml mr with _ | ⟨ml', mr'⟩
      · simp [hpoll]
      · simp only [hpoll]
        exact ih ml' mr' _

/-- **C8.** The process exit status is `0` exactly when initialization fully
succeeded and some frame's event queue contains `SDL_QUIT` (whatever the
movement flags and whenever in the run the event arrives), and `1` exactly
when some initialization step failed (video init, window/renderer creation,
or either texture load). -/
theorem C8_exit_status (ini : InitOutcome) (s : ℚ → ℚ) (frames : List (List SDLEvent)) :
    (mainModel ini s frames = some 0 ↔
      ((ini.videoOk ∧ ini.windowOk ∧ ini.shipTextureOk ∧ ini.enemyTextureOk) ∧
        ∃ evs ∈ frames, SDLEvent.quit ∈ evs)) ∧
    (mainModel ini s frames = some 1 ↔
      ¬(ini.videoOk ∧ ini.windowOk ∧ ini.shipTextureOk ∧ ini.enemyTextureOk)) := by
  unfold mainModel
  rcases ini with ⟨v, w, sh, en⟩
  cases v <;> cases w <;> cases sh <;> cases en <;>
    simp_all [runLoop_eq_zero_iff, runLoop_ne_one s frames false false initState]

/-! ## The binary32 `elapsed_time` accumulator (C6)

`elapsed_time` is an `f32` and `frame_time` is the binary32 value of
`1.f/60.f`, so the per-frame `elapsed_time += frame_time` rounds: exact
rationals are not faithful for claims about the accumulator's exact value.
`round32` below is IEEE-754 binary32 round-to-nearest-even for values in
the normal range (24-bit significand; the values this file manipulates are
nowhere near the subnormal or overflow thresholds), and `step32` is the
update step with the accumulator update performed in binary32. -/

